import Mathlib

/-!
# Verification of the AllMe face-service core (`src/face-service/main.py`)

Shallow embedding of the session cache, the job store, the batch
processor and the job-status endpoint of `src/face-service/main.py`,
together with proofs and refutations of the specification's claims.

Modelling conventions:
* Python `dict[str, V]` is modelled as an association list
  `List (String × V)` with unique keys; `dict.get` is `dictGet`,
  in-place mutation of a stored object is `dictMod`.
* `datetime.now()` is passed in explicitly as an integer timestamp
  (arbitrary time unit); `timedelta` values are integers in the same
  unit.
* Python `float` values are modelled as exact rationals; where the code
  performs float arithmetic (the progress percentage), the IEEE-754
  binary64 round-to-nearest-even semantics is made explicit through
  `roundD`.
* External oracle results (`face_recognition` calls) are abstracted per
  candidate image into an `ImageOutcome`: either the processing of the
  image raised an exception somewhere before the progress update
  (`failure`), or it produced a list of face-to-reference distances
  (`ok dists`; an image with no detected face is `ok []`, which the
  source treats identically to detected faces whose encoding list is
  empty).
-/

namespace AllMe

/-! ## Python dicts as association lists -/

/-- Python `d.get(k)`: first value bound to `k`, if any. -/
def dictGet {α : Type} : List (String × α) → String → Option α
  | [], _ => none
  | (k, v) :: rest, key => if k = key then some v else dictGet rest key

/-- Python `d[k] = v`: replace the value bound to `k`, or append a fresh binding
(Python dicts preserve insertion order). -/
def dictSet {α : Type} : List (String × α) → String → α → List (String × α)
  | [], key, v => [(key, v)]
  | (k, w) :: rest, key, v =>
    if k = key then (k, v) :: rest else (k, w) :: dictSet rest key v

/-- Python `del d[k]`: remove the binding of `k`. -/
def dictDel {α : Type} : List (String × α) → String → List (String × α)
  | [], _ => []
  | (k, w) :: rest, key =>
    if k = key then dictDel rest key else (k, w) :: dictDel rest key

/-- In-place mutation of the object stored under `key` (`obj =
d.get(key); obj.field = ...` in Python mutates the stored object);
entries under other keys are untouched. -/
def dictMod {α : Type} : List (String × α) → String → (α → α) → List (String × α)
  | [], _, _ => []
  | (k, v) :: rest, key, f =>
    if k = key then (k, f v) :: dictMod rest key f
    else (k, v) :: dictMod rest key f

/-! ## IEEE-754 binary64 arithmetic on exact rationals

The only float arithmetic the claims depend on numerically is the
progress percentage `int((current / total_images) * 100)`.  CPython
evaluates `int / int` and `float * int` as correctly rounded IEEE-754
binary64 operations (round to nearest, ties to even), and `int(x)`
truncates toward zero.  `roundD` is the exact-rational formalisation of
binary64 rounding; the exponent range is left unrestricted (no overflow
and no subnormals), which is faithful for every value arising in this
development, all of which lie well inside the normal range. -/

/-- The power `2 ^ e` in `ℚ` for an integer exponent. -/
def pow2 (e : ℤ) : ℚ :=
  if 0 ≤ e then ((2 ^ e.toNat : ℕ) : ℚ) else 1 / ((2 ^ (-e).toNat : ℕ) : ℚ)

/-- Round a rational to the nearest integer, ties to even. -/
def rne (q : ℚ) : ℤ :=
  if q - ⌊q⌋ < 1 / 2 then ⌊q⌋
  else if 1 / 2 < q - ⌊q⌋ then ⌊q⌋ + 1
  else if ⌊q⌋ % 2 = 0 then ⌊q⌋ else ⌊q⌋ + 1

/-- The first binary-length guess for `⌊log₂ q⌋` of a positive
rational: the difference of the binary logarithms of numerator and
denominator; it is off by at most one. -/
def ilogGuess (q : ℚ) : ℤ :=
  (Nat.log2 q.num.toNat : ℤ) - (Nat.log2 q.den : ℤ)

/-- The logarithm `⌊log₂ q⌋` of a positive rational: the binary-length guess,
corrected by direct comparison with the adjacent powers of two. -/
def ilog2 (q : ℚ) : ℤ :=
  if pow2 (ilogGuess q + 1) ≤ q then ilogGuess q + 1
  else if pow2 (ilogGuess q) ≤ q then ilogGuess q
  else ilogGuess q - 1

/-- Round a positive rational to 53 significant bits, ties to even. -/
def roundPos (q : ℚ) : ℚ :=
  (rne (q * pow2 (52 - ilog2 q)) : ℚ) * pow2 (ilog2 q - 52)

/-- Round a rational to the nearest IEEE-754 binary64 value
(53 significant bits, round to nearest, ties to even; exponent range
unrestricted).  The result is the exact rational value of the double. -/
def roundD (q : ℚ) : ℚ :=
  if q = 0 then 0 else if 0 < q then roundPos q else -roundPos (-q)

/-- Python `int(x)` on a float: truncation toward zero. -/
def pyTrunc (q : ℚ) : ℤ := if 0 ≤ q then ⌊q⌋ else -⌊-q⌋

/-- The value a float variable can actually hold: an integer of at most
53 significant bits scaled by a power of two (`d = m · 2^(a-b)`), the
exponent range again unrestricted. -/
def IsDouble (d : ℚ) : Prop :=
  ∃ (m : ℤ) (a b : ℕ), m.natAbs < 2 ^ 53 ∧ d * (2 : ℚ) ^ b = (m : ℚ) * (2 : ℚ) ^ a

/-- The exact value of the Python float literal `0.7` used as the match
threshold: the binary64 value nearest to 7/10, which is slightly below
7/10. -/
def matchThreshold : ℚ := 3152519739159347 / 4503599627370496

/-! ## SessionStore (`main.py` lines 18-72) -/

/-- Python `SessionData.__init__`: an embedding plus creation/access times. -/
structure SessionData where
  encoding : List ℚ
  created_at : ℤ
  last_accessed : ℤ
deriving DecidableEq

/-- The `SessionStore`: the sessions dict plus the TTL (`self.session_ttl`,
a fixed duration; the source sets it to 24 hours). -/
structure SessionStore where
  sessions : List (String × SessionData)
  session_ttl : ℤ
deriving DecidableEq

namespace SessionStore

/-- Method `SessionStore.store`: `self.sessions[session_id] = SessionData(encoding)`. -/
def store (st : SessionStore) (session_id : String) (encoding : List ℚ)
    (now : ℤ) : SessionStore :=
  let sd : SessionData :=
    { encoding := encoding, created_at := now, last_accessed := now }
  { st with sessions := dictSet st.sessions session_id sd }

/-- Method `SessionStore.retrieve`: on a hit, sets `last_accessed = now` and
returns the encoding; on a miss returns `None`.  The result pairs the
returned value with the mutated store. -/
def retrieve (st : SessionStore) (session_id : String) (now : ℤ) :
    Option (List ℚ) × SessionStore :=
  match dictGet st.sessions session_id with
  | some session_data =>
      let touched := dictMod st.sessions session_id
        (fun sd => { sd with last_accessed := now })
      (some session_data.encoding, { st with sessions := touched })
  | none => (none, st)

/-- Method `SessionStore.delete`: removes the entry if present, reporting
whether it existed. -/
def delete (st : SessionStore) (session_id : String) : Bool × SessionStore :=
  match dictGet st.sessions session_id with
  | some _ => (true, { st with sessions := dictDel st.sessions session_id })
  | none => (false, st)

/-- Method `SessionStore.cleanup_expired_sessions`: collects the ids whose
idle time since `last_accessed` strictly exceeds the TTL, deletes them,
and returns how many were removed (paired with the new store). -/
def cleanup_expired_sessions (st : SessionStore) (now : ℤ) :
    ℕ × SessionStore :=
  let expired_sessions :=
    (st.sessions.filter (fun p => decide (st.session_ttl < now - p.2.last_accessed))).map
      Prod.fst
  (expired_sessions.length,
   { st with sessions :=
       st.sessions.filter (fun p => !expired_sessions.contains p.1) })

end SessionStore

/-! ## JobStore (`main.py` lines 74-132) -/

/-- Python `MatchResult.__init__` (also covers `MatchResultModel`, whose
fields are identical). -/
structure MatchResult where
  index : ℤ
  distance : ℚ
deriving DecidableEq

/-- Python `JobStatus.__init__`: the mutable per-job record.  `status` keeps
the source's string values `"processing"`, `"completed"`, `"failed"`. -/
structure JobStatus where
  job_id : String
  status : String
  progress : ℤ
  current_image : ℤ
  total_images : ℤ
  matches_found : ℤ
  matches_list : List MatchResult
  message : String
  error : Option String
  created_at : ℤ
deriving DecidableEq

/-- The record built by `JobStatus.__init__(job_id, total_images)`. -/
def JobStatus.init (job_id : String) (total_images : ℤ) (now : ℤ) : JobStatus :=
  { job_id := job_id
    status := "processing"
    progress := 0
    current_image := 0
    total_images := total_images
    matches_found := 0
    matches_list := []
    message := "Starting processing..."
    error := none
    created_at := now }

/-- The `JobStore` is the `self.jobs` dict. -/
abbrev JobStore : Type := List (String × JobStatus)

namespace JobStore

/-- Method `JobStore.get_job`: `self.jobs.get(job_id)`. -/
def get_job (js : JobStore) (job_id : String) : Option JobStatus :=
  dictGet js job_id

/-- Method `JobStore.create_job`, with the fresh uuid passed in explicitly. -/
def create_job (js : JobStore) (job_id : String) (total_images : ℤ)
    (now : ℤ) : JobStore :=
  dictSet js job_id (JobStatus.init job_id total_images now)

/-- The float expression `int((current / total) * 100)` of
`update_progress`, evaluated with binary64 semantics: `current / total`
is a correctly rounded float division of two ints, `* 100` a correctly
rounded float multiplication, `int(...)` truncation toward zero. -/
def progressPercent (current total : ℤ) : ℤ :=
  pyTrunc (roundD (roundD ((current : ℚ) / (total : ℚ)) * 100))

/-- Method `JobStore.update_progress`: if the job exists (no terminal-state
check in the source), set `current_image`, `matches_found`, recompute
`progress`, refresh `message`. -/
def update_progress (js : JobStore) (job_id : String) (current : ℤ)
    (matches_found : ℤ) : JobStore :=
  dictMod js job_id fun job =>
    { job with
        current_image := current
        matches_found := matches_found
        progress :=
          if 0 < job.total_images then progressPercent current job.total_images
          else 0
        message :=
          "Processing image " ++ toString current ++ " of " ++
            toString job.total_images }

/-- Method `JobStore.complete_job`: if the job exists (no terminal-state check
in the source), set status `"completed"`, progress 100, the final
matches and their count, and the completion message. -/
def complete_job (js : JobStore) (job_id : String)
    (matches_list : List MatchResult) : JobStore :=
  dictMod js job_id fun job =>
    { job with
        status := "completed"
        progress := 100
        matches_list := matches_list
        matches_found := (matches_list.length : ℤ)
        message := "Completed! Found " ++ toString matches_list.length ++ " matches" }

/-- Method `JobStore.fail_job`: if the job exists (no terminal-state check in
the source), set status `"failed"`, the error, and the failure
message. -/
def fail_job (js : JobStore) (job_id : String) (error : String) : JobStore :=
  dictMod js job_id fun job =>
    { job with
        status := "failed"
        error := some error
        message := "Failed: " ++ error }

/-- Method `JobStore.delete_job`. -/
def delete_job (js : JobStore) (job_id : String) : Bool × JobStore :=
  match dictGet js job_id with
  | some _ => (true, dictDel js job_id)
  | none => (false, js)

end JobStore

/-! ## Batch processor (`main.py` lines 233-283) -/

/-- What one iteration of the image loop observes about a candidate
image: `failure` if decoding / detection / encoding raised (the
`except` branch runs `continue`), otherwise the list of distances
between the reference encoding and each face encoding of the image
(`ok []` for an image with no detected face, which the source treats
the same as a detected face list whose encodings are empty). -/
inductive ImageOutcome where
  | failure : ImageOutcome
  | ok : List ℚ → ImageOutcome
deriving DecidableEq

/-- One iteration of the inner face loop: `if distance <= 0.7 and
distance < best_distance: best_distance = distance`, with `none`
playing `float('inf')` (every distance is below infinity). -/
def bestStep (best : Option ℚ) (distance : ℚ) : Option ℚ :=
  if distance ≤ matchThreshold ∧ ∀ b ∈ best, distance < b then some distance
  else best

/-- The inner face loop: `best_distance = inf`, fold `bestStep` over
the distances, then the `best_distance <= 0.7` acceptance test.  A
`none` result models `best_distance == inf` (no face within the
threshold, nothing appended); a `some` result is the accepted best
distance. -/
def bestMatch (dists : List ℚ) : Option ℚ :=
  dists.foldl bestStep none

/-- State of the image loop: the local `matches` list of the loop, the job store,
and the instrumentation trace recording the `(current, matches_found)`
arguments of every `update_progress` call, in call order. -/
structure BatchState where
  matches_list : List MatchResult
  jobs : JobStore
  trace : List (ℤ × ℤ)

/-- One iteration of `for idx, image_base64 in enumerate(images)`.  On
`failure` the `except: continue` branch leaves everything unchanged
(in particular no `update_progress` call); otherwise a match may be
appended and `update_progress(job_id, idx + 1, len(matches))` runs. -/
def processImage (job_id : String) (idx : ℕ) (oc : ImageOutcome)
    (s : BatchState) : BatchState :=
  match oc with
  | ImageOutcome.failure => s
  | ImageOutcome.ok dists =>
    let matches_list :=
      match bestMatch dists with
      | some best_distance => s.matches_list ++ [⟨(idx : ℤ), best_distance⟩]
      | none => s.matches_list
    { matches_list := matches_list
      jobs := s.jobs.update_progress job_id ((idx : ℤ) + 1) (matches_list.length : ℤ)
      trace := s.trace ++ [((idx : ℤ) + 1, (matches_list.length : ℤ))] }

/-- The image loop, starting at index `idx`. -/
def batchLoop (job_id : String) (ocs : List ImageOutcome) (idx : ℕ)
    (s : BatchState) : BatchState :=
  match ocs with
  | [] => s
  | oc :: rest => batchLoop job_id rest (idx + 1) (processImage job_id idx oc s)

/-- Function `process_batch_background(job_id, session_id, images)`, with the
external `face_recognition` calls abstracted by `oracle`: given the
reference encoding and one base64 image string, `oracle` yields that
image's `ImageOutcome`.  Returns the final job store, the final session
store and the `update_progress` call trace.  The reference encoding is
retrieved from the session store once, up front; a miss fails the job
with `"Session not found"` and processes nothing. -/
def process_batch_background (oracle : List ℚ → String → ImageOutcome)
    (job_id session_id : String) (images : List String)
    (sess : SessionStore) (now : ℤ) (js : JobStore) :
    JobStore × SessionStore × List (ℤ × ℤ) :=
  match sess.retrieve session_id now with
  | (none, sess') => (js.fail_job job_id "Session not found", sess', [])
  | (some base_encoding, sess') =>
    let s := batchLoop job_id (images.map (oracle base_encoding)) 0
      { matches_list := [], jobs := js, trace := [] }
    (s.jobs.complete_job job_id s.matches_list, sess', s.trace)

/-! ## Job-status endpoint (`main.py` lines 308-338) -/

/-- The `JobStatusResponse` pydantic model; `matches_list` and `error`
default to `None`. -/
structure JobStatusResponse where
  job_id : String
  status : String
  progress : ℤ
  current_image : ℤ
  total_images : ℤ
  matches_found : ℤ
  message : String
  matches_list : Option (List MatchResult)
  error : Option String
deriving DecidableEq

/-- Endpoint `get_job_status`: `none` models the 404 on an unknown job id;
otherwise the response snapshot.  `matches_data` stays `None` unless
the job is completed and its match list is non-empty (Python list
truthiness). -/
def get_job_status (js : JobStore) (job_id : String) :
    Option JobStatusResponse :=
  match js.get_job job_id with
  | none => none
  | some job =>
    let matches_data :=
      if job.status = "completed" ∧ job.matches_list ≠ [] then some job.matches_list
      else none
    some
      { job_id := job.job_id
        status := job.status
        progress := job.progress
        current_image := job.current_image
        total_images := job.total_images
        matches_found := job.matches_found
        message := job.message
        matches_list := matches_data
        error := job.error }

/-! ## Specification-side definitions

These are written from the spec's words, for the claims that compare
the code against a described behaviour; they are not part of the
source embedding. -/

/-- Whether a processed image counts as a match (used to state the
amended progress-trace claim): a non-failing image whose best distance
passed the threshold. -/
def imageMatched (oc : ImageOutcome) : Bool :=
  match oc with
  | ImageOutcome.failure => false
  | ImageOutcome.ok dists => (bestMatch dists).isSome

/-- The `update_progress` argument trace the loop actually produces,
described directly: starting at image index `idx` with `m0` matches
accumulated, every non-failing image at index `i` contributes one call
`(i + 1, matches found so far)`, and failing images contribute
nothing. -/
def traceFrom (idx : ℕ) (m0 : ℕ) : List ImageOutcome → List (ℤ × ℤ)
  | [] => []
  | ImageOutcome.failure :: rest => traceFrom (idx + 1) m0 rest
  | ImageOutcome.ok dists :: rest =>
    let m := if (bestMatch dists).isSome then m0 + 1 else m0
    ((idx : ℤ) + 1, (m : ℤ)) :: traceFrom (idx + 1) m rest

/-- The minimum of a nonempty distance list, as the claim about
multi-face images words it. -/
def minDist (d : ℚ) (ds : List ℚ) : ℚ := ds.foldl min d

/-- The match list the loop accumulates, described directly: every
non-failing image whose best distance passed the threshold contributes
one entry carrying its index and best distance, in index order. -/
def matchesFrom (idx : ℕ) : List ImageOutcome → List MatchResult
  | [] => []
  | ImageOutcome.failure :: rest => matchesFrom (idx + 1) rest
  | ImageOutcome.ok dists :: rest =>
    match bestMatch dists with
    | some b => ⟨(idx : ℤ), b⟩ :: matchesFrom (idx + 1) rest
    | none => matchesFrom (idx + 1) rest

/-- Minimum of two optional distances (`none` plays infinity). -/
def optMin : Option ℚ → Option ℚ → Option ℚ
  | none, o => o
  | some a, none => some a
  | some a, some b => some (min a b)

/-- The minimum distance at most `matchThreshold` in a list, if any. -/
def thrMin (l : List ℚ) : Option ℚ :=
  l.foldr (fun x o => if x ≤ matchThreshold then optMin (some x) o else o) none


/-! ## Concrete fixtures used by witnesses and counterexamples -/

/-- A terminal (completed) job with recorded progress. -/
def sampleTerminalJob : JobStatus :=
  { job_id := "j", status := "completed", progress := 100,
    current_image := 2, total_images := 2, matches_found := 0,
    matches_list := [], message := "done", error := none, created_at := 0 }

/-- A mid-run processing job with partial progress and one match. -/
def sampleProcessingJob : JobStatus :=
  { job_id := "j", status := "processing", progress := 40,
    current_image := 2, total_images := 5, matches_found := 1,
    matches_list := [{ index := 0, distance := 1 / 2 }],
    message := "busy", error := none, created_at := 7 }

/-- A completed job holding exactly one match. -/
def sampleCompletedJob : JobStatus :=
  { job_id := "j", status := "completed", progress := 100,
    current_image := 1, total_images := 1, matches_found := 1,
    matches_list := [{ index := 0, distance := 1 / 2 }],
    message := "done", error := none, created_at := 0 }

/-- A one-session store whose stored embedding is empty. -/
def sampleSessionStore : SessionStore :=
  { sessions :=
      [("s", { encoding := [], created_at := 0, last_accessed := 0 })],
    session_ttl := 86400 }

/-- A one-session store holding the embedding `[1/2]`. -/
def sampleSessionStoreQ : SessionStore :=
  { sessions :=
      [("s", { encoding := [1 / 2], created_at := 0, last_accessed := 0 })],
    session_ttl := 86400 }

/-! ## Association-list lemmas -/

theorem dictGet_dictMod_self {α : Type} (d : List (String × α)) (k : String)
    (f : α → α) : dictGet (dictMod d k f) k = (dictGet d k).map f := by
  induction d with
  | nil => rfl
  | cons p rest ih =>
    obtain ⟨k', v⟩ := p
    by_cases h : k' = k
    · subst h
      simp [dictGet, dictMod]
    · simp [dictGet, dictMod, h, ih]

theorem dictGet_dictMod_ne {α : Type} (d : List (String × α)) (k k' : String)
    (f : α → α) (h : k' ≠ k) :
    dictGet (dictMod d k f) k' = dictGet d k' := by
  induction d with
  | nil => rfl
  | cons p rest ih =>
    obtain ⟨k₀, v⟩ := p
    by_cases h0 : k₀ = k
    · subst h0
      simp [dictGet, dictMod, Ne.symm h, ih]
    · by_cases h1 : k₀ = k'
      · subst h1
        simp [dictGet, dictMod, h0]
      · simp [dictGet, dictMod, h0, h1, ih]

theorem dictMod_dictMod {α : Type} (d : List (String × α)) (k : String)
    (f g : α → α) :
    dictMod (dictMod d k f) k g = dictMod d k (fun v => g (f v)) := by
  induction d with
  | nil => rfl
  | cons p rest ih =>
    obtain ⟨k₀, v⟩ := p
    by_cases h : k₀ = k <;> simp [dictMod, h, ih]

theorem dictMod_of_get_none {α : Type} (d : List (String × α)) (k : String)
    (f : α → α) (h : dictGet d k = none) : dictMod d k f = d := by
  induction d with
  | nil => rfl
  | cons p rest ih =>
    obtain ⟨k₀, v⟩ := p
    by_cases h0 : k₀ = k
    · subst h0
      simp [dictGet] at h
    · simp [dictGet, h0] at h
      simp [dictMod, h0, ih h]

theorem dictMod_keys {α : Type} (d : List (String × α)) (k : String)
    (f : α → α) : (dictMod d k f).map Prod.fst = d.map Prod.fst := by
  induction d with
  | nil => rfl
  | cons p rest ih =>
    obtain ⟨k₀, v⟩ := p
    by_cases h : k₀ = k <;> simp [dictMod, h, ih]

theorem dictGet_eq_none_of_not_mem {α : Type} (d : List (String × α))
    (k : String) (h : k ∉ d.map Prod.fst) : dictGet d k = none := by
  induction d with
  | nil => rfl
  | cons p rest ih =>
    obtain ⟨k₀, v⟩ := p
    have h1 : k₀ ≠ k := by
      intro he
      exact h (by simp [he])
    have h2 : k ∉ rest.map Prod.fst := by
      intro hm
      exact h (by simp [hm])
    simp [dictGet, h1, ih h2]

theorem mem_of_dictGet_eq_some {α : Type} {d : List (String × α)}
    {k : String} {v : α} (h : dictGet d k = some v) : (k, v) ∈ d := by
  induction d with
  | nil => simp [dictGet] at h
  | cons p rest ih =>
    obtain ⟨k₀, v₀⟩ := p
    by_cases h0 : k₀ = k
    · subst h0
      simp [dictGet] at h
      simp [h]
    · simp [dictGet, h0] at h
      simp [ih h]

/-! ## Evaluation lemmas for the binary64 model -/

theorem pow2_eq_zpow (e : ℤ) : pow2 e = (2 : ℚ) ^ e := by
  unfold pow2
  cases e with
  | ofNat n =>
    simp [Int.toNat_ofNat, zpow_natCast]
  | negSucc n =>
    have h1 : ¬(0 ≤ Int.negSucc n) := by
      simp [Int.negSucc_not_nonneg]
    have h2 : (-Int.negSucc n).toNat = n + 1 := rfl
    rw [if_neg h1, h2, zpow_negSucc]
    push_cast
    rw [one_div]

theorem pow2_pos (e : ℤ) : 0 < pow2 e := by
  rw [pow2_eq_zpow]; positivity

theorem natCast_zpow_eq {n : ℕ} : ((2 ^ n : ℕ) : ℚ) = (2 : ℚ) ^ (n : ℤ) := by
  push_cast
  rw [zpow_natCast]

theorem ilog2_eq {q : ℚ} {e : ℤ} (h1 : pow2 e ≤ q) (h2 : q < pow2 (e + 1)) :
    ilog2 q = e := by
  have hq : 0 < q := lt_of_lt_of_le (pow2_pos e) h1
  have hnum : 0 < q.num := Rat.num_pos.mpr hq
  have hden0 : q.den ≠ 0 := q.den_nz
  have hD0 : (0 : ℚ) < (q.den : ℚ) := by
    exact_mod_cast Nat.pos_of_ne_zero hden0
  have htn : ((q.num.toNat : ℕ) : ℚ) = (q.num : ℚ) := by
    exact_mod_cast congrArg (fun z : ℤ => (z : ℚ)) (Int.toNat_of_nonneg hnum.le)
  -- numerator and denominator lie between adjacent powers of two
  have hNl : (2 : ℚ) ^ (Nat.log2 q.num.toNat : ℤ) ≤ (q.num : ℚ) := by
    have h := Nat.log2_self_le (n := q.num.toNat) (by omega)
    calc (2 : ℚ) ^ (Nat.log2 q.num.toNat : ℤ)
        = ((2 ^ Nat.log2 q.num.toNat : ℕ) : ℚ) := natCast_zpow_eq.symm
      _ ≤ ((q.num.toNat : ℕ) : ℚ) := by exact_mod_cast h
      _ = (q.num : ℚ) := htn
  have hNu : (q.num : ℚ) < (2 : ℚ) ^ ((Nat.log2 q.num.toNat : ℤ) + 1) := by
    have h := Nat.lt_log2_self (n := q.num.toNat)
    calc (q.num : ℚ) = ((q.num.toNat : ℕ) : ℚ) := htn.symm
      _ < ((2 ^ (Nat.log2 q.num.toNat + 1) : ℕ) : ℚ) := by exact_mod_cast h
      _ = (2 : ℚ) ^ ((Nat.log2 q.num.toNat : ℤ) + 1) := by
          rw [natCast_zpow_eq]
          push_cast
          ring_nf
  have hDl : (2 : ℚ) ^ (Nat.log2 q.den : ℤ) ≤ (q.den : ℚ) := by
    have h := Nat.log2_self_le (n := q.den) hden0
    calc (2 : ℚ) ^ (Nat.log2 q.den : ℤ)
        = ((2 ^ Nat.log2 q.den : ℕ) : ℚ) := natCast_zpow_eq.symm
      _ ≤ (q.den : ℚ) := by exact_mod_cast h
  have hDu : (q.den : ℚ) < (2 : ℚ) ^ ((Nat.log2 q.den : ℤ) + 1) := by
    have h := Nat.lt_log2_self (n := q.den)
    calc (q.den : ℚ) < ((2 ^ (Nat.log2 q.den + 1) : ℕ) : ℚ) := by exact_mod_cast h
      _ = (2 : ℚ) ^ ((Nat.log2 q.den : ℤ) + 1) := by
          rw [natCast_zpow_eq]
          push_cast
          ring_nf
  have hqD : q * (q.den : ℚ) = (q.num : ℚ) := by
    have h := Rat.num_div_den q
    exact ((div_eq_iff hD0.ne').mp h).symm
  set La : ℤ := (Nat.log2 q.num.toNat : ℤ) with hLa
  set Lb : ℤ := (Nat.log2 q.den : ℤ) with hLb
  -- hence q itself is bracketed around the binary-length guess
  have hub : q < (2 : ℚ) ^ (La - Lb + 1) := by
    rw [← mul_lt_mul_right hD0, hqD]
    calc (q.num : ℚ) < (2 : ℚ) ^ (La + 1) := hNu
      _ = (2 : ℚ) ^ (La - Lb + 1) * (2 : ℚ) ^ Lb := by
          rw [← zpow_add₀ (two_ne_zero (α := ℚ))]
          congr 1
          ring
      _ ≤ (2 : ℚ) ^ (La - Lb + 1) * (q.den : ℚ) :=
          mul_le_mul_of_nonneg_left hDl (by positivity)
  have hlb : (2 : ℚ) ^ (La - Lb - 1) < q := by
    rw [← mul_lt_mul_right hD0, hqD]
    calc (2 : ℚ) ^ (La - Lb - 1) * (q.den : ℚ)
        < (2 : ℚ) ^ (La - Lb - 1) * (2 : ℚ) ^ (Lb + 1) :=
          mul_lt_mul_of_pos_left hDu (by positivity)
      _ = (2 : ℚ) ^ La := by
          rw [← zpow_add₀ (two_ne_zero (α := ℚ))]
          congr 1
          ring
      _ ≤ (q.num : ℚ) := hNl
  -- so the guess is e or e + 1
  have h1' : (2 : ℚ) ^ e ≤ q := by rw [← pow2_eq_zpow]; exact h1
  have h2' : q < (2 : ℚ) ^ (e + 1) := by rw [← pow2_eq_zpow]; exact h2
  have he1 : e ≤ La - Lb := by
    have h := lt_of_le_of_lt h1' hub
    have := (zpow_lt_zpow_iff_right₀ (a := (2 : ℚ)) (by norm_num)).mp h
    omega
  have he2 : La - Lb ≤ e + 1 := by
    have h := lt_trans hlb h2'
    have := (zpow_lt_zpow_iff_right₀ (a := (2 : ℚ)) (by norm_num)).mp h
    omega
  have hguess : ilogGuess q = La - Lb := by
    rw [ilogGuess, hLa, hLb]
  rcases (by omega : La - Lb = e ∨ La - Lb = e + 1) with hcase | hcase
  · rw [ilog2, hguess, hcase, if_neg (not_le.mpr h2), if_pos h1]
  · have hne1 : ¬ pow2 (e + 1 + 1) ≤ q := by
      rw [pow2_eq_zpow]
      push_neg
      calc q < (2 : ℚ) ^ (e + 1) := h2'
        _ < (2 : ℚ) ^ (e + 1 + 1) := by
            apply zpow_lt_zpow_right₀ (by norm_num)
            omega
    have hne2 : ¬ pow2 (e + 1) ≤ q := not_le.mpr h2
    rw [ilog2, hguess, hcase, if_neg hne1, if_neg hne2]
    omega

theorem rne_down {q : ℚ} {n : ℤ} (h1 : (n : ℚ) ≤ q) (h2 : q < (n : ℚ) + 1 / 2) :
    rne q = n := by
  have hf : ⌊q⌋ = n := Int.floor_eq_iff.mpr ⟨h1, by linarith⟩
  rw [rne, hf, if_pos (by linarith)]

theorem rne_up {q : ℚ} {n : ℤ} (h1 : (n : ℚ) + 1 / 2 < q) (h2 : q ≤ (n : ℚ) + 1) :
    rne q = n + 1 := by
  rcases eq_or_lt_of_le h2 with heq | hlt
  · have hf : ⌊q⌋ = n + 1 := by
      rw [heq, show ((n : ℚ) + 1) = ((n + 1 : ℤ) : ℚ) by norm_cast]
      exact Int.floor_intCast (n + 1)
    rw [rne, hf]
    have : q - ((n + 1 : ℤ) : ℚ) < 1 / 2 := by
      push_cast
      linarith
    rw [if_pos this]
  · have hf : ⌊q⌋ = n := Int.floor_eq_iff.mpr ⟨by linarith, by linarith⟩
    rw [rne, hf, if_neg (by linarith), if_pos (by linarith)]

theorem roundD_pos_eq {q : ℚ} {e n : ℤ} (h1 : pow2 e ≤ q) (h2 : q < pow2 (e + 1))
    (hn : rne (q * pow2 (52 - e)) = n) :
    roundD q = (n : ℚ) * pow2 (e - 52) := by
  have hq : 0 < q := lt_of_lt_of_le (pow2_pos e) h1
  rw [roundD, if_neg hq.ne', if_pos hq, roundPos, ilog2_eq h1 h2, hn]

/-- The binary64 value of `29 / 100` (the double `0.29` is slightly
below 29/100). -/
theorem roundD_29_div_100 :
    roundD (29 / 100) = 5224175567749775 / 18014398509481984 := by
  have h1 : pow2 (-2) ≤ (29 / 100 : ℚ) := by
    rw [pow2_eq_zpow]
    norm_num
  have h2 : (29 / 100 : ℚ) < pow2 (-2 + 1) := by
    rw [pow2_eq_zpow]
    norm_num
  have hn : rne ((29 / 100 : ℚ) * pow2 (52 - (-2))) = 5224175567749775 := by
    rw [show (52 - (-2) : ℤ) = 54 by norm_num, pow2_eq_zpow]
    apply rne_down <;> norm_num
  rw [roundD_pos_eq h1 h2 hn, show ((-2 : ℤ) - 52) = -54 by norm_num,
    pow2_eq_zpow]
  norm_num

/-- The binary64 product of the double `0.29` with `100`: slightly
below 29, so `int()` truncates it to 28. -/
theorem roundD_29_div_100_mul_100 :
    roundD (5224175567749775 / 18014398509481984 * 100) =
      8162774324609023 / 281474976710656 := by
  have h1 : pow2 4 ≤ (5224175567749775 / 18014398509481984 * 100 : ℚ) := by
    rw [pow2_eq_zpow]
    norm_num
  have h2 : (5224175567749775 / 18014398509481984 * 100 : ℚ) < pow2 (4 + 1) := by
    rw [pow2_eq_zpow]
    norm_num
  have hn : rne ((5224175567749775 / 18014398509481984 * 100 : ℚ) *
      pow2 (52 - 4)) = 8162774324609023 := by
    rw [show (52 - 4 : ℤ) = 48 by norm_num, pow2_eq_zpow]
    apply rne_down <;> norm_num
  rw [roundD_pos_eq h1 h2 hn, show ((4 : ℤ) - 52) = -48 by norm_num,
    pow2_eq_zpow]
  norm_num

/-- The progress percentage the code computes at `current = 29`,
`total = 100`: the float evaluation lands just below 29 and `int()`
truncates it to 28. -/
theorem progressPercent_29_100 : JobStore.progressPercent 29 100 = 28 := by
  rw [JobStore.progressPercent,
    show (((29 : ℤ) : ℚ) / ((100 : ℤ) : ℚ)) = (29 / 100 : ℚ) by norm_num,
    roundD_29_div_100, roundD_29_div_100_mul_100, pyTrunc,
    if_pos (by norm_num)]
  rw [Int.floor_eq_iff]
  constructor <;> norm_num

/-! ## The inner face loop -/

theorem optMin_assoc (a b c : Option ℚ) :
    optMin (optMin a b) c = optMin a (optMin b c) := by
  cases a <;> cases b <;> cases c <;> simp [optMin, min_assoc]

theorem bestStep_eq (acc : Option ℚ) (x : ℚ) :
    bestStep acc x = optMin acc (if x ≤ matchThreshold then some x else none) := by
  cases acc with
  | none =>
    by_cases h : x ≤ matchThreshold <;> simp [bestStep, optMin, h]
  | some a =>
    by_cases h : x ≤ matchThreshold
    · by_cases h2 : x < a
      · simp [bestStep, optMin, h, h2, min_eq_right h2.le]
      · simp [bestStep, optMin, h, h2, min_eq_left (not_lt.mp h2)]
    · simp [bestStep, optMin, h]

theorem bestFold_eq (l : List ℚ) :
    ∀ acc : Option ℚ, l.foldl bestStep acc = optMin acc (thrMin l) := by
  induction l with
  | nil =>
    intro acc
    cases acc <;> simp [thrMin, optMin]
  | cons x rest ih =>
    intro acc
    have : thrMin (x :: rest) =
        optMin (if x ≤ matchThreshold then some x else none) (thrMin rest) := by
      by_cases h : x ≤ matchThreshold <;> simp [thrMin, optMin, h]
    rw [List.foldl_cons, ih (bestStep acc x), bestStep_eq, this, optMin_assoc]

theorem bestMatch_eq_thrMin (l : List ℚ) : bestMatch l = thrMin l := by
  rw [bestMatch, bestFold_eq]
  cases thrMin l <;> simp [optMin]

theorem thrMin_le (l : List ℚ) :
    ∀ b : ℚ, thrMin l = some b → b ≤ matchThreshold := by
  induction l with
  | nil =>
    intro b h
    simp [thrMin] at h
  | cons x rest ih =>
    intro b h
    by_cases hx : x ≤ matchThreshold
    · rw [show thrMin (x :: rest) = optMin (some x) (thrMin rest) by
        simp [thrMin, hx]] at h
      cases hrest : thrMin rest with
      | none =>
        rw [hrest] at h
        rw [show optMin (some x) none = some x from rfl] at h
        injection h with h
        exact h ▸ hx
      | some c =>
        rw [hrest] at h
        rw [show optMin (some x) (some c) = some (min x c) from rfl] at h
        injection h with h
        rw [← h]
        exact le_trans (min_le_left x c) hx
    · rw [show thrMin (x :: rest) = thrMin rest by simp [thrMin, hx]] at h
      exact ih b h

theorem bestMatch_le (l : List ℚ) :
    ∀ b : ℚ, bestMatch l = some b → b ≤ matchThreshold := by
  rw [bestMatch_eq_thrMin]
  exact thrMin_le l

/-! ## The image loop -/

theorem batchLoop_matches (jid : String) (ocs : List ImageOutcome) :
    ∀ (idx : ℕ) (s : BatchState),
    (batchLoop jid ocs idx s).matches_list =
      s.matches_list ++ matchesFrom idx ocs := by
  induction ocs with
  | nil =>
    intro idx s
    simp [batchLoop, matchesFrom]
  | cons oc rest ih =>
    intro idx s
    cases oc with
    | failure =>
      rw [batchLoop, ih]
      simp [processImage, matchesFrom]
    | ok dists =>
      rw [batchLoop, ih]
      cases hbm : bestMatch dists with
      | none => simp [processImage, hbm, matchesFrom]
      | some b => simp [processImage, hbm, matchesFrom]

theorem batchLoop_trace (jid : String) (ocs : List ImageOutcome) :
    ∀ (idx : ℕ) (s : BatchState),
    (batchLoop jid ocs idx s).trace =
      s.trace ++ traceFrom idx s.matches_list.length ocs := by
  induction ocs with
  | nil =>
    intro idx s
    simp [batchLoop, traceFrom]
  | cons oc rest ih =>
    intro idx s
    cases oc with
    | failure =>
      rw [batchLoop, ih]
      simp [processImage, traceFrom]
    | ok dists =>
      rw [batchLoop, ih]
      cases hbm : bestMatch dists with
      | none => simp [processImage, hbm, traceFrom]
      | some b => simp [processImage, hbm, traceFrom]

theorem dictGet_dictMod_isSome {α : Type} (d : List (String × α))
    (key k : String) (f : α → α) :
    (dictGet (dictMod d key f) k).isSome = (dictGet d k).isSome := by
  by_cases h : k = key
  · subst h
    rw [dictGet_dictMod_self]
    cases dictGet d k <;> simp
  · rw [dictGet_dictMod_ne d key k f h]

theorem batchLoop_jobs_isSome (jid : String) (ocs : List ImageOutcome) :
    ∀ (idx : ℕ) (s : BatchState) (k : String),
    (dictGet (batchLoop jid ocs idx s).jobs k).isSome =
      (dictGet s.jobs k).isSome := by
  induction ocs with
  | nil =>
    intro idx s k
    simp [batchLoop]
  | cons oc rest ih =>
    intro idx s k
    cases oc with
    | failure =>
      rw [batchLoop, ih]
      simp [processImage]
    | ok dists =>
      rw [batchLoop, ih]
      simp [processImage, JobStore.update_progress, dictGet_dictMod_isSome]

theorem matchesFrom_mem (ocs : List ImageOutcome) :
    ∀ (idx : ℕ) (m : MatchResult), m ∈ matchesFrom idx ocs →
      (idx : ℤ) ≤ m.index ∧ m.index < (idx : ℤ) + ocs.length ∧
        m.distance ≤ matchThreshold := by
  induction ocs with
  | nil =>
    intro idx m hm
    simp [matchesFrom] at hm
  | cons oc rest ih =>
    intro idx m hm
    cases oc with
    | failure =>
      rw [matchesFrom] at hm
      obtain ⟨h1, h2, h3⟩ := ih (idx + 1) m hm
      refine ⟨by push_cast at h1 ⊢; omega,
        by simp only [List.length_cons] at h2 ⊢; push_cast at h2 ⊢; omega, h3⟩
    | ok dists =>
      rw [matchesFrom] at hm
      cases hbm : bestMatch dists with
      | none =>
        rw [hbm] at hm
        obtain ⟨h1, h2, h3⟩ := ih (idx + 1) m hm
        refine ⟨by push_cast at h1 ⊢; omega,
          by simp only [List.length_cons] at h2 ⊢; push_cast at h2 ⊢; omega, h3⟩
      | some b =>
        rw [hbm] at hm
        rcases List.mem_cons.mp hm with heq | hmem
        · subst heq
          refine ⟨le_refl _,
            by simp only [List.length_cons]; push_cast; omega,
            bestMatch_le dists b hbm⟩
        · obtain ⟨h1, h2, h3⟩ := ih (idx + 1) m hmem
          refine ⟨by push_cast at h1 ⊢; omega,
            by simp only [List.length_cons] at h2 ⊢; push_cast at h2 ⊢; omega, h3⟩

theorem matchesFrom_pairwise (ocs : List ImageOutcome) :
    ∀ idx : ℕ, (matchesFrom idx ocs).Pairwise (fun a b => a.index < b.index) := by
  induction ocs with
  | nil =>
    intro idx
    simp [matchesFrom]
  | cons oc rest ih =>
    intro idx
    cases oc with
    | failure =>
      rw [matchesFrom]
      exact ih (idx + 1)
    | ok dists =>
      rw [matchesFrom]
      cases hbm : bestMatch dists with
      | none => exact ih (idx + 1)
      | some b =>
        refine List.Pairwise.cons ?_ (ih (idx + 1))
        intro m hm
        have := (matchesFrom_mem rest (idx + 1) m hm).1
        push_cast at this ⊢
        omega

/-! ## Doubles and the 0.7 threshold -/

theorem matchThreshold_lt : matchThreshold < 7 / 10 := by
  rw [matchThreshold]
  norm_num

theorem half_lt_matchThreshold : 1 / 2 < matchThreshold := by
  rw [matchThreshold]
  norm_num

/-- No binary64 value lies in the gap `(matchThreshold, 7/10]`, so for
a float the comparison against the literal `0.7` coincides with the
exact comparison against 7/10. -/
theorem double_le_thr {x : ℚ} (hd : IsDouble x) :
    x ≤ matchThreshold ↔ x ≤ 7 / 10 := by
  constructor
  · intro h
    exact h.trans matchThreshold_lt.le
  · intro h
    by_contra hc
    push_neg at hc
    obtain ⟨m, a, b, hm, heq⟩ := hd
    by_cases hab : b ≤ a + 53
    · -- x · 2^53 is an integer squeezed into the empty gap
      have hpow : (2 : ℚ) ^ (a + 53 - b) * 2 ^ b = 2 ^ (a + 53) := by
        rw [← pow_add]
        congr 1
        omega
      have hkey : x * 2 ^ 53 * 2 ^ b = ((m * 2 ^ (a + 53 - b) : ℤ) : ℚ) * 2 ^ b := by
        push_cast
        calc x * 2 ^ 53 * 2 ^ b = (x * 2 ^ b) * 2 ^ 53 := by ring
          _ = (m : ℚ) * 2 ^ a * 2 ^ 53 := by rw [heq]
          _ = (m : ℚ) * 2 ^ (a + 53) := by rw [mul_assoc, ← pow_add]
          _ = (m : ℚ) * (2 ^ (a + 53 - b) * 2 ^ b) := by rw [hpow]
          _ = (m : ℚ) * 2 ^ (a + 53 - b) * 2 ^ b := by ring
      have hkey2 : x * 2 ^ 53 = ((m * 2 ^ (a + 53 - b) : ℤ) : ℚ) :=
        mul_right_cancel₀ (pow_ne_zero b (two_ne_zero (α := ℚ))) hkey
      set k : ℤ := m * 2 ^ (a + 53 - b) with hk
      have hlow : (6305039478318694 : ℤ) < k := by
        have h1 : matchThreshold * 2 ^ 53 < x * 2 ^ 53 :=
          mul_lt_mul_of_pos_right hc (by positivity)
        rw [hkey2, show matchThreshold * 2 ^ 53 = (6305039478318694 : ℚ) by
          rw [matchThreshold]; norm_num] at h1
        exact_mod_cast h1
      have hhigh : 10 * k ≤ 63050394783186944 := by
        have h1 : x * 2 ^ 53 ≤ (7 / 10 : ℚ) * 2 ^ 53 :=
          mul_le_mul_of_nonneg_right h (by positivity)
        rw [hkey2] at h1
        have h2 : ((k : ℚ)) * 10 ≤ 63050394783186944 := by
          calc ((k : ℚ)) * 10 ≤ (7 / 10 : ℚ) * 2 ^ 53 * 10 := by
                apply mul_le_mul_of_nonneg_right h1 (by norm_num)
            _ = 63050394783186944 := by norm_num
        exact_mod_cast (by linarith : (10 : ℚ) * k ≤ 63050394783186944)
      omega
    · -- the exponent is so small that |x| < 1/2, below the threshold
      push_neg at hab
      have hx2 : 1 / 2 < x := lt_trans half_lt_matchThreshold hc
      have hm' : (m : ℚ) < 2 ^ 53 := by
        have h1 : m ≤ (m.natAbs : ℤ) := Int.le_natAbs
        have h2 : (m.natAbs : ℤ) < 2 ^ 53 := by exact_mod_cast hm
        exact_mod_cast lt_of_le_of_lt h1 h2
      have h1 : (2 : ℚ) ^ (b - 1) < x * 2 ^ b := by
        have hsplit : (2 : ℚ) ^ b = 2 ^ (b - 1) * 2 := by
          rw [← pow_succ]
          congr 1
          omega
        calc (2 : ℚ) ^ (b - 1) = (1 / 2) * 2 ^ b := by rw [hsplit]; ring
          _ < x * 2 ^ b := mul_lt_mul_of_pos_right hx2 (by positivity)
      have h2 : x * 2 ^ b < 2 ^ (b - 1) := by
        rw [heq]
        calc (m : ℚ) * 2 ^ a < 2 ^ 53 * 2 ^ a :=
              mul_lt_mul_of_pos_right hm' (by positivity)
          _ = 2 ^ (53 + a) := by rw [← pow_add]
          _ ≤ 2 ^ (b - 1) := by
              apply pow_le_pow_right₀ (by norm_num)
              omega
      linarith

theorem foldl_min_pull (l : List ℚ) :
    ∀ a b : ℚ, l.foldl min (min a b) = min a (l.foldl min b) := by
  induction l with
  | nil =>
    intro a b
    simp
  | cons c rest ih =>
    intro a b
    rw [List.foldl_cons, List.foldl_cons, min_assoc, ih a (min b c)]

theorem minDist_cons (d x : ℚ) (rest : List ℚ) :
    minDist d (x :: rest) = min d (minDist x rest) := by
  rw [minDist, List.foldl_cons, minDist]
  exact foldl_min_pull rest d x

theorem thrMin_doubles (ds : List ℚ) :
    ∀ d : ℚ, (∀ x ∈ d :: ds, IsDouble x) →
    thrMin (d :: ds) =
      (if minDist d ds ≤ 7 / 10 then some (minDist d ds) else none) := by
  induction ds with
  | nil =>
    intro d hall
    have hiff := double_le_thr (hall d (List.mem_cons_self d []))
    by_cases h : d ≤ 7 / 10
    · rw [if_pos (by rw [minDist]; simpa using h)]
      rw [show minDist d [] = d from rfl]
      simp [thrMin, hiff.mpr h, optMin]
    · rw [if_neg (by rw [show minDist d [] = d from rfl]; exact h)]
      have hne : ¬ d ≤ matchThreshold := fun hh => h (hiff.mp hh)
      simp [thrMin, hne]
  | cons x rest ih =>
    intro d hall
    have hdD := double_le_thr (hall d (List.mem_cons_self d (x :: rest)))
    have hallx : ∀ y ∈ x :: rest, IsDouble y := by
      intro y hy
      exact hall y (List.mem_cons_of_mem d hy)
    have hstep : thrMin (d :: x :: rest) =
        (if d ≤ matchThreshold then optMin (some d) (thrMin (x :: rest))
         else thrMin (x :: rest)) := by
      by_cases h : d ≤ matchThreshold <;> simp [thrMin, h]
    rw [hstep, ih x hallx, minDist_cons]
    by_cases hd7 : d ≤ 7 / 10 <;> by_cases hM : minDist x rest ≤ 7 / 10
    · rw [if_pos (hdD.mpr hd7), if_pos hM,
        if_pos (le_trans (min_le_left d (minDist x rest)) hd7)]
      rfl
    · have hdM : d ≤ minDist x rest := le_of_lt (lt_of_le_of_lt hd7 (not_le.mp hM))
      rw [if_pos (hdD.mpr hd7), if_neg hM,
        if_pos (le_trans (min_le_left d (minDist x rest)) hd7),
        show optMin (some d) none = some d from rfl, min_eq_left hdM]
    · have hMd : minDist x rest ≤ d := le_of_lt (lt_of_le_of_lt hM (not_le.mp hd7))
      rw [if_neg (fun hh => hd7 (hdD.mp hh)), if_pos hM,
        if_pos (le_trans (min_le_right d (minDist x rest)) hM),
        min_eq_right hMd]
    · rw [if_neg (fun hh => hd7 (hdD.mp hh)), if_neg hM,
        if_neg (not_le.mpr (lt_min (not_le.mp hd7) (not_le.mp hM)))]

/-! ## SessionStore lemmas -/

theorem keys_uniq {α : Type} {d : List (String × α)}
    (h : (d.map Prod.fst).Nodup) :
    ∀ p ∈ d, ∀ q ∈ d, p.1 = q.1 → p = q := by
  induction d with
  | nil => simp
  | cons r rest ih =>
    simp only [List.map_cons, List.nodup_cons] at h
    intro p hp q hq hfst
    rcases List.mem_cons.mp hp with hp1 | hp2 <;>
      rcases List.mem_cons.mp hq with hq1 | hq2
    · rw [hp1, hq1]
    · exfalso
      apply h.1
      subst hp1
      rw [hfst]
      exact List.mem_map_of_mem Prod.fst hq2
    · exfalso
      apply h.1
      subst hq1
      rw [← hfst]
      exact List.mem_map_of_mem Prod.fst hp2
    · exact ih h.2 p hp2 q hq2 hfst

theorem filter_keys_sub {α : Type} (d : List (String × α))
    (pred : String × α → Bool) :
    ((d.filter pred).map Prod.fst) ⊆ d.map Prod.fst :=
  List.map_subset Prod.fst (List.filter_subset' d)

theorem dictGet_filter_of_nodup {α : Type} {d : List (String × α)}
    (h : (d.map Prod.fst).Nodup) {k : String} {v : α}
    (hv : dictGet d k = some v) (pred : String × α → Bool) :
    dictGet (d.filter pred) k = (if pred (k, v) then some v else none) := by
  induction d with
  | nil => simp [dictGet] at hv
  | cons r rest ih =>
    obtain ⟨k₀, v₀⟩ := r
    simp only [List.map_cons, List.nodup_cons] at h
    by_cases h0 : k₀ = k
    · have hv0 : v₀ = v := by
        simp only [dictGet, if_pos h0] at hv
        injection hv
      by_cases hp : pred (k, v) = true
      · rw [List.filter_cons_of_pos (by rw [h0, hv0]; exact hp)]
        simp only [dictGet, if_pos h0, if_pos hp, hv0]
      · rw [List.filter_cons_of_neg (by rw [h0, hv0]; exact hp), if_neg hp]
        apply dictGet_eq_none_of_not_mem
        intro hmem
        apply h.1
        rw [h0]
        exact filter_keys_sub rest pred hmem
    · simp only [dictGet, if_neg h0] at hv
      have hrec := ih h.2 hv
      by_cases hp : pred (k₀, v₀) = true
      · rw [List.filter_cons_of_pos hp]
        simp only [dictGet, if_neg h0]
        exact hrec
      · rw [List.filter_cons_of_neg hp]
        exact hrec

theorem retrieve_hit {st : SessionStore} {sid : String} {sd : SessionData}
    (hv : dictGet st.sessions sid = some sd) (now : ℤ) :
    st.retrieve sid now =
      (some sd.encoding,
       { st with sessions :=
           dictMod st.sessions sid (fun x => { x with last_accessed := now }) }) := by
  unfold SessionStore.retrieve
  rw [hv]

theorem retrieve_miss {st : SessionStore} {sid : String}
    (hv : dictGet st.sessions sid = none) (now : ℤ) :
    st.retrieve sid now = (none, st) := by
  unfold SessionStore.retrieve
  rw [hv]

theorem retrieve_none_snd {st : SessionStore} {sid : String} {now : ℤ}
    (h : (st.retrieve sid now).1 = none) : st.retrieve sid now = (none, st) := by
  cases hv : dictGet st.sessions sid with
  | none => exact retrieve_miss hv now
  | some sd =>
    rw [retrieve_hit hv now] at h
    simp at h

theorem retrieve_some_get {st : SessionStore} {sid : String} {now : ℤ}
    {base : List ℚ} (h : (st.retrieve sid now).1 = some base) :
    ∃ sd, dictGet st.sessions sid = some sd ∧ sd.encoding = base := by
  cases hv : dictGet st.sessions sid with
  | none =>
    rw [retrieve_miss hv now] at h
    simp at h
  | some sd =>
    rw [retrieve_hit hv now] at h
    simp at h
    exact ⟨sd, rfl, h⟩

/-- The session dict after an eviction pass, with unique keys: exactly
the entries whose idle time is within the TTL survive. -/
theorem cleanup_lookup {st : SessionStore}
    (hnd : (st.sessions.map Prod.fst).Nodup) {sid : String} {sd : SessionData}
    (hv : dictGet st.sessions sid = some sd) (now : ℤ) :
    dictGet (st.cleanup_expired_sessions now).2.sessions sid =
      (if st.session_ttl < now - sd.last_accessed then none else some sd) := by
  have hsess : (st.cleanup_expired_sessions now).2.sessions =
      st.sessions.filter (fun p =>
        !((st.sessions.filter (fun q =>
            decide (st.session_ttl < now - q.2.last_accessed))).map Prod.fst).contains p.1) := by
    rfl
  rw [hsess, dictGet_filter_of_nodup hnd hv]
  by_cases hc : st.session_ttl < now - sd.last_accessed
  · rw [if_pos hc, if_neg]
    have hmem : sid ∈ ((st.sessions.filter (fun q =>
        decide (st.session_ttl < now - q.2.last_accessed))).map Prod.fst) :=
      List.mem_map_of_mem Prod.fst
        (List.mem_filter.mpr ⟨mem_of_dictGet_eq_some hv, by simpa using hc⟩)
    simp [hmem]
  · rw [if_neg hc, if_pos]
    have hnmem : sid ∉ ((st.sessions.filter (fun q =>
        decide (st.session_ttl < now - q.2.last_accessed))).map Prod.fst) := by
      intro hx
      obtain ⟨q, hq, hqfst⟩ := List.mem_map.mp hx
      have hqf := List.mem_filter.mp hq
      have hqeq : q = (sid, sd) :=
        keys_uniq hnd q hqf.1 (sid, sd) (mem_of_dictGet_eq_some hv) (by rw [hqfst])
      rw [hqeq] at hqf
      have := hqf.2
      simp at this
      exact hc this
    simp [hnmem]

/-! ## Batch-processor reduction lemmas -/

theorem process_batch_miss (oracle : List ℚ → String → ImageOutcome)
    (job_id session_id : String) (images : List String) (sess : SessionStore)
    (now : ℤ) (js : JobStore)
    (hmiss : (sess.retrieve session_id now).1 = none) :
    process_batch_background oracle job_id session_id images sess now js =
      (js.fail_job job_id "Session not found", sess, []) := by
  simp only [process_batch_background]
  rw [retrieve_none_snd hmiss]

theorem process_batch_hit (oracle : List ℚ → String → ImageOutcome)
    (job_id session_id : String) (images : List String) (sess : SessionStore)
    (now : ℤ) (js : JobStore) {sd : SessionData}
    (hsd : dictGet sess.sessions session_id = some sd) :
    process_batch_background oracle job_id session_id images sess now js =
      ((batchLoop job_id (images.map (oracle sd.encoding)) 0
          { matches_list := [], jobs := js, trace := [] }).jobs.complete_job job_id
        (batchLoop job_id (images.map (oracle sd.encoding)) 0
          { matches_list := [], jobs := js, trace := [] }).matches_list,
       (sess.retrieve session_id now).2,
       (batchLoop job_id (images.map (oracle sd.encoding)) 0
          { matches_list := [], jobs := js, trace := [] }).trace) := by
  simp only [process_batch_background]
  rw [retrieve_hit hsd now]

/-! ## The claims -/

/-- C1 counterexample: `complete_job` called on an already-failed job is
not a no-op — it flips the job to `completed`, contradicting the claim
that a terminal job keeps the fields of its first terminal call. -/
theorem complete_job_resurrects_failed_job :
    (dictGet ((JobStore.fail_job [("j", JobStatus.init "j" 3 0)] "j"
        "boom").complete_job "j" []) "j").map JobStatus.status =
      some "completed" ∧
    (dictGet (JobStore.fail_job [("j", JobStatus.init "j" 3 0)] "j" "boom")
        "j").map JobStatus.status = some "failed" :=
  ⟨rfl, rfl⟩

/-- C1 (amended): `complete_job` and `fail_job` never check the current
status.  Repeating the same call with the same arguments is a no-op,
but a terminal state is not protected: `complete_job` on a failed job
overwrites it to `completed` (keeping the old `error` field), so the
claimed cross-call idempotence fails. -/
theorem terminal_calls_overwrite_idempotent_same_args
    (js : JobStore) (jid : String) (ms : List MatchResult) (err : String) :
    (js.complete_job jid ms).complete_job jid ms = js.complete_job jid ms ∧
    (js.fail_job jid err).fail_job jid err = js.fail_job jid err ∧
    (∀ j, dictGet js jid = some j →
      ∃ j', dictGet ((js.fail_job jid err).complete_job jid ms) jid = some j' ∧
        j'.status = "completed" ∧ j'.error = some err ∧
        j'.matches_list = ms) := by
  refine ⟨?_, ?_, ?_⟩
  · simp only [JobStore.complete_job]
    rw [dictMod_dictMod]
  · simp only [JobStore.fail_job]
    rw [dictMod_dictMod]
  · intro j hj
    simp only [JobStore.complete_job, JobStore.fail_job]
    rw [dictMod_dictMod, dictGet_dictMod_self, hj]
    exact ⟨_, rfl, rfl, rfl, rfl⟩

/-- C1 witness: the resurrection clause evaluated on a one-job store. -/
theorem terminal_calls_overwrite_witness :
    ∃ j', dictGet ((JobStore.fail_job [("j", JobStatus.init "j" 3 0)] "j"
        "boom").complete_job "j" []) "j" = some j' ∧
      j'.status = "completed" ∧ j'.error = some "boom" ∧
      j'.matches_list = [] :=
  (terminal_calls_overwrite_idempotent_same_args
    [("j", JobStatus.init "j" 3 0)] "j" [] "boom").2.2
    (JobStatus.init "j" 3 0) rfl

/-- C2 counterexample: `update_progress` on a job that is already
`completed` still mutates it (here `current_image` moves from 2 to 1),
so terminal states are not absorbing for progress updates. -/
theorem update_progress_mutates_terminal_job :
    (dictGet (JobStore.update_progress
        [("j", { job_id := "j", status := "completed", progress := 100,
                 current_image := 2, total_images := 2, matches_found := 0,
                 matches_list := [], message := "done", error := none,
                 created_at := 0 })] "j" 1 0) "j").map JobStatus.current_image =
      some 1 ∧
    ({ job_id := "j", status := "completed", progress := 100,
       current_image := 2, total_images := 2, matches_found := 0,
       matches_list := [], message := "done", error := none,
       created_at := 0 } : JobStatus).status = "completed" ∧
    ({ job_id := "j", status := "completed", progress := 100,
       current_image := 2, total_images := 2, matches_found := 0,
       matches_list := [], message := "done", error := none,
       created_at := 0 } : JobStatus).current_image = 2 :=
  ⟨rfl, rfl, rfl⟩

/-- C2 (amended): `update_progress` is a no-op exactly when the job id
is absent.  On any existing job — terminal included — it overwrites
`current_image`, `matches_found`, `progress` and `message`, leaving
`status`, `matches`, `error`, `total_images` and `created_at`
untouched. -/
theorem update_progress_noop_only_when_absent (js : JobStore) (jid : String)
    (c m : ℤ) :
    (dictGet js jid = none → js.update_progress jid c m = js) ∧
    (∀ j, dictGet js jid = some j →
      ∃ j', dictGet (js.update_progress jid c m) jid = some j' ∧
        j'.current_image = c ∧ j'.matches_found = m ∧
        j'.progress = (if 0 < j.total_images
          then JobStore.progressPercent c j.total_images else 0) ∧
        j'.message = ("Processing image " ++ toString c ++ " of " ++
          toString j.total_images) ∧
        j'.status = j.status ∧ j'.matches_list = j.matches_list ∧
        j'.error = j.error ∧ j'.total_images = j.total_images ∧
        j'.created_at = j.created_at) := by
  constructor
  · intro h
    simp only [JobStore.update_progress]
    exact dictMod_of_get_none js jid _ h
  · intro j hj
    simp only [JobStore.update_progress]
    rw [dictGet_dictMod_self, hj]
    exact ⟨_, rfl, rfl, rfl, rfl, rfl, rfl, rfl, rfl, rfl, rfl⟩

/-- C2 witness: the mutation clause evaluated on a one-job store whose
job is already completed. -/
theorem update_progress_noop_only_when_absent_witness :
    ∃ j', dictGet (JobStore.update_progress [("j", sampleTerminalJob)]
        "j" 1 0) "j" = some j' ∧
      j'.current_image = 1 ∧ j'.matches_found = 0 ∧
      j'.progress = (if 0 < sampleTerminalJob.total_images
        then JobStore.progressPercent 1 sampleTerminalJob.total_images
        else 0) ∧
      j'.message = ("Processing image " ++ toString (1 : ℤ) ++ " of " ++
        toString sampleTerminalJob.total_images) ∧
      j'.status = sampleTerminalJob.status ∧
      j'.matches_list = sampleTerminalJob.matches_list ∧
      j'.error = sampleTerminalJob.error ∧
      j'.total_images = sampleTerminalJob.total_images ∧
      j'.created_at = sampleTerminalJob.created_at :=
  (update_progress_noop_only_when_absent [("j", sampleTerminalJob)]
    "j" 1 0).2 sampleTerminalJob rfl

/-- C8 counterexample: at `current = 29`, `total = 100` the job's
progress becomes 28, while the claimed exact value
`floor(29/100 * 100)` is 29 — `int((29/100)*100)` evaluates to 28 in
binary64 arithmetic. -/
theorem progress_percent_float_vs_floor :
    (dictGet (JobStore.update_progress [("j", JobStatus.init "j" 100 0)]
        "j" 29 0) "j").map JobStatus.progress = some 28 ∧
    (JobStatus.init "j" 100 0).status = "processing" ∧
    ⌊((29 : ℚ) / (100 : ℚ)) * 100⌋ = 29 := by
  refine ⟨?_, rfl, ?_⟩
  · simp only [JobStore.update_progress]
    rw [dictGet_dictMod_self,
      show dictGet [("j", JobStatus.init "j" 100 0)] "j" =
        some (JobStatus.init "j" 100 0) from rfl]
    show some (if 0 < (100 : ℤ) then JobStore.progressPercent 29 100 else 0) =
      some 28
    rw [if_pos (by norm_num), progressPercent_29_100]
  · rw [show ((29 : ℚ) / (100 : ℚ) * 100) = ((29 : ℤ) : ℚ) by norm_num,
      Int.floor_intCast]

/-- C8 (amended): for an existing non-terminal job and
`0 ≤ current ≤ totalImages`, the resulting `progress` is the truncation
toward zero of the IEEE-754 binary64 evaluation of
`(current / totalImages) * 100` when `totalImages > 0` — which can fall
one below the exact `floor` (28 instead of 29 at 29/100) — and 0 when
`totalImages` is 0. -/
theorem update_progress_float_truncation (js : JobStore) (jid : String)
    (c m : ℤ) (j : JobStatus) (hj : dictGet js jid = some j)
    (_hstatus : j.status = "processing") (_hc0 : 0 ≤ c)
    (_hct : c ≤ j.total_images) :
    ∃ j', dictGet (js.update_progress jid c m) jid = some j' ∧
      j'.progress = (if 0 < j.total_images
        then pyTrunc (roundD (roundD ((c : ℚ) / (j.total_images : ℚ)) * 100))
        else 0) ∧
      (j.total_images = 0 → j'.progress = 0) := by
  simp only [JobStore.update_progress]
  rw [dictGet_dictMod_self, hj]
  refine ⟨_, rfl, rfl, ?_⟩
  intro h0
  show (if 0 < j.total_images then JobStore.progressPercent c j.total_images
    else 0) = 0
  simp [h0]

/-- C8 witness: the amended formula evaluated at the counterexample
input, where it yields 28. -/
theorem update_progress_float_truncation_witness :
    ∃ j', dictGet (JobStore.update_progress [("j", JobStatus.init "j" 100 0)]
        "j" 29 0) "j" = some j' ∧
      j'.progress = (if 0 < (JobStatus.init "j" 100 0).total_images
        then pyTrunc (roundD (roundD ((29 : ℚ) /
          ((JobStatus.init "j" 100 0).total_images : ℚ)) * 100))
        else 0) ∧
      ((JobStatus.init "j" 100 0).total_images = 0 → j'.progress = 0) :=
  update_progress_float_truncation [("j", JobStatus.init "j" 100 0)] "j" 29 0
    (JobStatus.init "j" 100 0) rfl rfl (by norm_num)
    (by show (29 : ℤ) ≤ 100; norm_num)

/-- C9: `fail_job` on an existing job touches only `status`, `error`
and `message`; the partial progress recorded before the failure
(`current_image`, `progress`, `matches`, `matches_found`,
`total_images`, `created_at`) survives. -/
theorem fail_job_frame (js : JobStore) (jid err : String) (j : JobStatus)
    (hj : dictGet js jid = some j) :
    ∃ j', dictGet (js.fail_job jid err) jid = some j' ∧
      j'.status = "failed" ∧ j'.error = some err ∧
      j'.message = "Failed: " ++ err ∧
      j'.current_image = j.current_image ∧ j'.progress = j.progress ∧
      j'.matches_list = j.matches_list ∧ j'.matches_found = j.matches_found ∧
      j'.total_images = j.total_images ∧ j'.created_at = j.created_at ∧
      j'.job_id = j.job_id := by
  simp only [JobStore.fail_job]
  rw [dictGet_dictMod_self, hj]
  exact ⟨_, rfl, rfl, rfl, rfl, rfl, rfl, rfl, rfl, rfl, rfl, rfl⟩

/-- C9 witness: the frame condition evaluated on a one-job store with
recorded partial progress. -/
theorem fail_job_frame_witness :
    ∃ j', dictGet (JobStore.fail_job [("j", sampleProcessingJob)] "j"
        "boom") "j" = some j' ∧
      j'.status = "failed" ∧ j'.error = some "boom" ∧
      j'.message = "Failed: " ++ "boom" ∧
      j'.current_image = sampleProcessingJob.current_image ∧
      j'.progress = sampleProcessingJob.progress ∧
      j'.matches_list = sampleProcessingJob.matches_list ∧
      j'.matches_found = sampleProcessingJob.matches_found ∧
      j'.total_images = sampleProcessingJob.total_images ∧
      j'.created_at = sampleProcessingJob.created_at ∧
      j'.job_id = sampleProcessingJob.job_id :=
  fail_job_frame [("j", sampleProcessingJob)] "j" "boom"
    sampleProcessingJob rfl

/-- C10: the status response carries a `matches` list exactly when the
job is completed with a non-empty match list; a processing job, a
failed job, and a completed job with zero matches all report `None`
(never an empty list). -/
theorem job_status_matches_only_completed_nonempty (js : JobStore)
    (jid : String) (j : JobStatus) (hj : dictGet js jid = some j) :
    ∃ resp, get_job_status js jid = some resp ∧
      (j.status = "processing" → resp.matches_list = none) ∧
      (j.status = "failed" → resp.matches_list = none) ∧
      (j.status = "completed" → j.matches_list = [] →
        resp.matches_list = none) ∧
      (j.status = "completed" → j.matches_list ≠ [] →
        resp.matches_list = some j.matches_list) := by
  simp only [get_job_status, JobStore.get_job, hj]
  refine ⟨_, rfl, ?_, ?_, ?_, ?_⟩
  · intro h
    show (if j.status = "completed" ∧ j.matches_list ≠ [] then
      some j.matches_list else none) = none
    simp [h]
  · intro h
    show (if j.status = "completed" ∧ j.matches_list ≠ [] then
      some j.matches_list else none) = none
    simp [h]
  · intro h1 h2
    show (if j.status = "completed" ∧ j.matches_list ≠ [] then
      some j.matches_list else none) = none
    simp [h1, h2]
  · intro h1 h2
    show (if j.status = "completed" ∧ j.matches_list ≠ [] then
      some j.matches_list else none) = some j.matches_list
    simp [h1, h2]

/-- C10 witness: the four response shapes evaluated on a one-job store
holding a completed job with one match. -/
theorem job_status_matches_witness :
    ∃ resp, get_job_status [("j", sampleCompletedJob)] "j" = some resp ∧
      (sampleCompletedJob.status = "processing" →
        resp.matches_list = none) ∧
      (sampleCompletedJob.status = "failed" → resp.matches_list = none) ∧
      (sampleCompletedJob.status = "completed" →
        sampleCompletedJob.matches_list = [] → resp.matches_list = none) ∧
      (sampleCompletedJob.status = "completed" →
        sampleCompletedJob.matches_list ≠ [] →
        resp.matches_list = some sampleCompletedJob.matches_list) :=
  job_status_matches_only_completed_nonempty [("j", sampleCompletedJob)]
    "j" sampleCompletedJob rfl

/-- C3 counterexample: a batch of one image whose processing raises
produces an empty `update_progress` trace — the claimed single call
`(1, 0)` for image index 0 never happens. -/
theorem progress_call_skipped_on_failed_image :
    (process_batch_background (fun _ _ => ImageOutcome.failure) "j" "s"
        ["img"] sampleSessionStore 0 [("j", JobStatus.init "j" 1 0)]).2.2 =
      [] ∧
    ¬ (([] : List (ℤ × ℤ)).map Prod.fst =
        (List.range 1).map (fun i => (i : ℤ) + 1)) := by
  constructor
  · rfl
  · intro h
    simp at h

/-- C3 (amended): `update_progress(id, i+1, matchesSoFar)` is called
exactly once per image that processes without raising, in submission
order; an image whose decoding, detection or encoding raises is skipped
entirely — no progress call is made for it (the `except` branch runs
`continue` before the update).  `traceFrom 0 0` is that description. -/
theorem progress_trace_per_successful_image
    (oracle : List ℚ → String → ImageOutcome) (job_id session_id : String)
    (images : List String) (sess : SessionStore) (now : ℤ) (js : JobStore)
    (base_encoding : List ℚ)
    (hretr : (sess.retrieve session_id now).1 = some base_encoding) :
    (process_batch_background oracle job_id session_id images sess now
        js).2.2 = traceFrom 0 0 (images.map (oracle base_encoding)) := by
  obtain ⟨sd, hsd, henc⟩ := retrieve_some_get hretr
  rw [process_batch_hit oracle job_id session_id images sess now js hsd]
  show (batchLoop job_id (images.map (oracle sd.encoding)) 0
    { matches_list := [], jobs := js, trace := [] }).trace = _
  rw [batchLoop_trace, henc]
  rfl

/-- C3 witness: a three-image batch (match, failure, no-match) against
a stored session produces calls `(1, 1)` and `(3, 1)` only. -/
theorem progress_trace_per_successful_image_witness :
    (process_batch_background
        (fun _ img => if img = "bad" then ImageOutcome.failure
          else if img = "hit" then ImageOutcome.ok [1 / 2]
          else ImageOutcome.ok []) "j" "s" ["hit", "bad", "miss"]
        sampleSessionStore 0 [("j", JobStatus.init "j" 3 0)]).2.2 =
      traceFrom 0 0 (["hit", "bad", "miss"].map
        ((fun _ img => if img = "bad" then ImageOutcome.failure
          else if img = "hit" then ImageOutcome.ok [1 / 2]
          else ImageOutcome.ok []) ([] : List ℚ))) :=
  progress_trace_per_successful_image
    (fun _ img => if img = "bad" then ImageOutcome.failure
      else if img = "hit" then ImageOutcome.ok [1 / 2]
      else ImageOutcome.ok []) "j" "s" ["hit", "bad", "miss"]
    sampleSessionStore 0 [("j", JobStatus.init "j" 3 0)] [] rfl

/-- C4: the batch processor reads the session store once, at job start.
On a miss it fails the job with `"Session not found"`, touches nothing
else and processes no image (the result does not even depend on the
images).  On a hit, the session store is never written after the
retrieve, and the job-store outcome and call trace depend on the
session store only through the retrieved encoding: any store and time
yielding the same encoding yield the same job outcome — so deleting
the session after the snapshot cannot change the job. -/
theorem session_snapshot_read_once (oracle : List ℚ → String → ImageOutcome)
    (job_id session_id : String) (images : List String)
    (sess : SessionStore) (now : ℤ) (js : JobStore) :
    ((sess.retrieve session_id now).1 = none →
      process_batch_background oracle job_id session_id images sess now js =
        (js.fail_job job_id "Session not found", sess, [])) ∧
    (∀ base_encoding, (sess.retrieve session_id now).1 = some base_encoding →
      (process_batch_background oracle job_id session_id images sess now
          js).2.1 = (sess.retrieve session_id now).2 ∧
      (∀ (sess₂ : SessionStore) (now₂ : ℤ),
        (sess₂.retrieve session_id now₂).1 = some base_encoding →
        (process_batch_background oracle job_id session_id images sess now
            js).1 =
          (process_batch_background oracle job_id session_id images sess₂
            now₂ js).1 ∧
        (process_batch_background oracle job_id session_id images sess now
            js).2.2 =
          (process_batch_background oracle job_id session_id images sess₂
            now₂ js).2.2)) := by
  constructor
  · intro h
    exact process_batch_miss oracle job_id session_id images sess now js h
  · intro base h
    obtain ⟨sd, hsd, henc⟩ := retrieve_some_get h
    constructor
    · rw [process_batch_hit oracle job_id session_id images sess now js hsd]
    · intro sess₂ now₂ h₂
      obtain ⟨sd₂, hsd₂, henc₂⟩ := retrieve_some_get h₂
      rw [process_batch_hit oracle job_id session_id images sess now js hsd,
        process_batch_hit oracle job_id session_id images sess₂ now₂ js hsd₂,
        henc, henc₂]
      exact ⟨rfl, rfl⟩

/-- C4 witness: the hit clause evaluated on a one-session store,
compared against any second store holding the same encoding. -/
theorem session_snapshot_read_once_witness :
    ((sampleSessionStore.retrieve "s" 5).1 = some [] →
      ((process_batch_background (fun _ _ => ImageOutcome.ok []) "j" "s"
          ["img"] sampleSessionStore 5
          [("j", JobStatus.init "j" 1 0)]).2.1 =
        (sampleSessionStore.retrieve "s" 5).2 ∧
      (∀ (sess₂ : SessionStore) (now₂ : ℤ),
        (sess₂.retrieve "s" now₂).1 = some [] →
        ((process_batch_background (fun _ _ => ImageOutcome.ok []) "j" "s"
            ["img"] sampleSessionStore 5
            [("j", JobStatus.init "j" 1 0)]).1 =
          (process_batch_background (fun _ _ => ImageOutcome.ok []) "j" "s"
            ["img"] sess₂ now₂ [("j", JobStatus.init "j" 1 0)]).1 ∧
        (process_batch_background (fun _ _ => ImageOutcome.ok []) "j" "s"
            ["img"] sampleSessionStore 5
            [("j", JobStatus.init "j" 1 0)]).2.2 =
          (process_batch_background (fun _ _ => ImageOutcome.ok []) "j" "s"
            ["img"] sess₂ now₂
            [("j", JobStatus.init "j" 1 0)]).2.2)))) ∧
    (sampleSessionStore.retrieve "s" 5).1 = some [] :=
  ⟨(session_snapshot_read_once (fun _ _ => ImageOutcome.ok []) "j" "s"
      ["img"] sampleSessionStore 5 [("j", JobStatus.init "j" 1 0)]).2 [],
   rfl⟩

/-- C5: whenever the batch processor runs with a stored session and an
existing job, the finished job is `completed` and its final match list
is well-formed: every index lies in `[0, N)` for `N` submitted images,
the indices are strictly increasing (hence pairwise distinct, at most
one entry per image), and every recorded distance is at most 0.7. -/
theorem completed_matches_wellformed (oracle : List ℚ → String → ImageOutcome)
    (job_id session_id : String) (images : List String)
    (sess : SessionStore) (now : ℤ) (js : JobStore) (base_encoding : List ℚ)
    (j0 : JobStatus) (hretr : (sess.retrieve session_id now).1 = some base_encoding)
    (hjob : dictGet js job_id = some j0) :
    ∃ j', dictGet (process_batch_background oracle job_id session_id images
        sess now js).1 job_id = some j' ∧
      j'.status = "completed" ∧ j'.progress = 100 ∧
      (∀ m ∈ j'.matches_list, 0 ≤ m.index ∧ m.index < (images.length : ℤ) ∧
        m.distance ≤ 7 / 10) ∧
      j'.matches_list.Pairwise (fun m1 m2 => m1.index < m2.index) := by
  obtain ⟨sd, hsd, henc⟩ := retrieve_some_get hretr
  rw [process_batch_hit oracle job_id session_id images sess now js hsd]
  have hpres : (dictGet (batchLoop job_id (images.map (oracle sd.encoding)) 0
      { matches_list := [], jobs := js, trace := [] }).jobs job_id).isSome := by
    rw [batchLoop_jobs_isSome]
    simp [hjob]
  obtain ⟨j1, hj1⟩ := Option.isSome_iff_exists.mp hpres
  simp only [JobStore.complete_job]
  rw [dictGet_dictMod_self, hj1]
  refine ⟨_, rfl, rfl, rfl, ?_, ?_⟩
  · intro m hm
    have hm2 : m ∈ (batchLoop job_id (images.map (oracle sd.encoding)) 0
        { matches_list := [], jobs := js, trace := [] }).matches_list := hm
    rw [batchLoop_matches] at hm2
    have hm' : m ∈ matchesFrom 0 (images.map (oracle sd.encoding)) := by
      simpa using hm2
    obtain ⟨h1, h2, h3⟩ := matchesFrom_mem (images.map (oracle sd.encoding))
      0 m hm'
    refine ⟨by exact_mod_cast h1, ?_, h3.trans matchThreshold_lt.le⟩
    rw [List.length_map] at h2
    simpa using h2
  · have hpw : (batchLoop job_id (images.map (oracle sd.encoding)) 0
        { matches_list := [], jobs := js,
          trace := [] }).matches_list.Pairwise
        (fun m1 m2 => m1.index < m2.index) := by
      rw [batchLoop_matches]
      simpa using matchesFrom_pairwise (images.map (oracle sd.encoding)) 0
    exact hpw

/-- C5 witness: a two-image batch (one match, one miss) against a
stored session and an existing job. -/
theorem completed_matches_wellformed_witness :
    ∃ j', dictGet (process_batch_background
        (fun _ img => if img = "hit" then ImageOutcome.ok [1 / 2]
          else ImageOutcome.ok []) "j" "s" ["hit", "miss"]
        sampleSessionStore 0 [("j", JobStatus.init "j" 2 0)]).1 "j" =
        some j' ∧
      j'.status = "completed" ∧ j'.progress = 100 ∧
      (∀ m ∈ j'.matches_list, 0 ≤ m.index ∧
        m.index < ((["hit", "miss"] : List String).length : ℤ) ∧
        m.distance ≤ 7 / 10) ∧
      j'.matches_list.Pairwise (fun m1 m2 => m1.index < m2.index) :=
  completed_matches_wellformed
    (fun _ img => if img = "hit" then ImageOutcome.ok [1 / 2]
      else ImageOutcome.ok []) "j" "s" ["hit", "miss"]
    sampleSessionStore 0 [("j", JobStatus.init "j" 2 0)] []
    (JobStatus.init "j" 2 0) rfl rfl

/-- C6: for a candidate image with at least one face, all face
distances being binary64 values, the image is accepted exactly when the
minimum distance is at most 0.7, and the recorded distance is that
minimum. -/
theorem multiface_accept_iff_min_le_threshold (d : ℚ) (ds : List ℚ)
    (hall : ∀ x ∈ d :: ds, IsDouble x) :
    bestMatch (d :: ds) =
      (if minDist d ds ≤ 7 / 10 then some (minDist d ds) else none) := by
  rw [bestMatch_eq_thrMin, thrMin_doubles ds d hall]

/-- C6 witness: face distances 9/16 and 1/2 (both exact doubles) give
an accepted match with the minimum distance 1/2. -/
theorem multiface_accept_witness :
    (∀ x ∈ [(9 : ℚ) / 16, 1 / 2], IsDouble x) ∧
    bestMatch [(9 : ℚ) / 16, 1 / 2] =
      (if minDist (9 / 16) [1 / 2] ≤ 7 / 10
       then some (minDist (9 / 16) [1 / 2]) else none) := by
  have hall : ∀ x ∈ [(9 : ℚ) / 16, 1 / 2], IsDouble x := by
    intro x hx
    simp only [List.mem_cons, List.mem_singleton, List.not_mem_nil,
      or_false] at hx
    rcases hx with h | h <;> subst h
    · exact ⟨9, 0, 4, by norm_num, by norm_num⟩
    · exact ⟨1, 0, 1, by norm_num, by norm_num⟩
  exact ⟨hall, multiface_accept_iff_min_le_threshold (9 / 16) [1 / 2] hall⟩

/-- C7: with unique session ids, `retrieve` on a present id returns the
stored embedding and stamps `last_accessed = now` (and is a harmless
no-op on a missing id); an eviction pass removes exactly the sessions
idle strictly longer than the TTL and reports their count; and a
session retrieved at `now` survives an eviction pass at any `now₂`
within the TTL. -/
theorem session_retrieve_refresh_evict_spec (st : SessionStore)
    (sid : String) (now now₂ : ℤ)
    (hnd : (st.sessions.map Prod.fst).Nodup) :
    (dictGet st.sessions sid = none → st.retrieve sid now = (none, st)) ∧
    (∀ sd, dictGet st.sessions sid = some sd →
      (st.retrieve sid now).1 = some sd.encoding ∧
      dictGet (st.retrieve sid now).2.sessions sid =
        some { sd with last_accessed := now }) ∧
    ((st.cleanup_expired_sessions now).1 =
      (st.sessions.filter (fun p =>
        decide (st.session_ttl < now - p.2.last_accessed))).length) ∧
    (∀ sd, dictGet st.sessions sid = some sd →
      dictGet (st.cleanup_expired_sessions now).2.sessions sid =
        (if st.session_ttl < now - sd.last_accessed then none
         else some sd)) ∧
    (∀ sd, dictGet st.sessions sid = some sd → now₂ - now ≤ st.session_ttl →
      dictGet ((st.retrieve sid now).2.cleanup_expired_sessions
          now₂).2.sessions sid = some { sd with last_accessed := now }) := by
  refine ⟨fun h => retrieve_miss h now, ?_, ?_, ?_, ?_⟩
  · intro sd hsd
    rw [retrieve_hit hsd now]
    refine ⟨rfl, ?_⟩
    show dictGet (dictMod st.sessions sid
      (fun x => { x with last_accessed := now })) sid = _
    rw [dictGet_dictMod_self, hsd]
    rfl
  · simp only [SessionStore.cleanup_expired_sessions]
    rw [List.length_map]
  · intro sd hsd
    exact cleanup_lookup hnd hsd now
  · intro sd hsd httl
    have hnd' : (((dictMod st.sessions sid
        (fun x => { x with last_accessed := now })).map Prod.fst)).Nodup := by
      rw [dictMod_keys]
      exact hnd
    have hsd' : dictGet (dictMod st.sessions sid
        (fun x => { x with last_accessed := now })) sid =
        some { sd with last_accessed := now } := by
      rw [dictGet_dictMod_self, hsd]
      rfl
    have hcl := @cleanup_lookup
      ⟨dictMod st.sessions sid (fun x => { x with last_accessed := now }),
       st.session_ttl⟩ hnd' sid { sd with last_accessed := now } hsd' now₂
    rw [retrieve_hit hsd now]
    show dictGet ((SessionStore.mk (dictMod st.sessions sid
        (fun x => { x with last_accessed := now }))
        st.session_ttl).cleanup_expired_sessions now₂).2.sessions sid = _
    rw [hcl, if_neg (by show ¬ st.session_ttl < now₂ - now; omega)]

/-- C7 witness: a one-session store, retrieved at time 10 and swept at
time 20 with a TTL of 86400. -/
theorem session_retrieve_refresh_evict_witness :
    ((dictGet sampleSessionStoreQ.sessions "s" = none →
      sampleSessionStoreQ.retrieve "s" 10 = (none, sampleSessionStoreQ)) ∧
     (∀ sd, dictGet sampleSessionStoreQ.sessions "s" = some sd →
      (sampleSessionStoreQ.retrieve "s" 10).1 = some sd.encoding ∧
      dictGet (sampleSessionStoreQ.retrieve "s" 10).2.sessions "s" =
        some { sd with last_accessed := 10 }) ∧
     ((sampleSessionStoreQ.cleanup_expired_sessions 10).1 =
      (sampleSessionStoreQ.sessions.filter (fun p =>
        decide (sampleSessionStoreQ.session_ttl <
          10 - p.2.last_accessed))).length) ∧
     (∀ sd, dictGet sampleSessionStoreQ.sessions "s" = some sd →
      dictGet (sampleSessionStoreQ.cleanup_expired_sessions
          10).2.sessions "s" =
        (if sampleSessionStoreQ.session_ttl < 10 - sd.last_accessed
         then none else some sd)) ∧
     (∀ sd, dictGet sampleSessionStoreQ.sessions "s" = some sd →
      (20 : ℤ) - 10 ≤ sampleSessionStoreQ.session_ttl →
      dictGet ((sampleSessionStoreQ.retrieve
          "s" 10).2.cleanup_expired_sessions 20).2.sessions "s" =
        some { sd with last_accessed := 10 })) ∧
    (sampleSessionStoreQ.sessions.map Prod.fst).Nodup :=
  ⟨session_retrieve_refresh_evict_spec sampleSessionStoreQ "s" 10 20
    (by simp [sampleSessionStoreQ]),
   by simp [sampleSessionStoreQ]⟩

end AllMe
